import Mathlib

/-!
Verification of the beta-diversity visualizer module of q2-diversity
(`q2_diversity/_beta/_visualizer.py`), via a shallow embedding.

Conventions of the embedding:
* Sample identifiers are `String`s; distances are `Rat`.
* A pandas/metadata cell is a `Value`: a number, a raw string, or a
  missing value (`na`, modelling `NaN`).
* A skbio `DistanceMatrix` is its ordered identifier list plus a distance
  function; data beyond the identifier bookkeeping is carried abstractly.
* Fallible operations (strict filtering, raised `ValueError`s) live in
  `Except String`.
* External statistical routines (skbio `permanova`/`anosim`/`pwmantel`)
  are parameters of the embedded pipelines: the module under verification
  delegates the statistic itself and only wires data in and out.
-/

instance {e a : Type} [DecidableEq e] [DecidableEq a] :
    DecidableEq (Except e a) := fun x y =>
  match x, y with
  | .error u, .error v =>
    if h : u = v then .isTrue (by rw [h])
    else .isFalse (fun hh => by cases hh; exact h rfl)
  | .error _, .ok _ => .isFalse (fun hh => by cases hh)
  | .ok _, .error _ => .isFalse (fun hh => by cases hh)
  | .ok u, .ok v =>
    if h : u = v then .isTrue (by rw [h])
    else .isFalse (fun hh => by cases hh; exact h rfl)

/-- A metadata cell: numeric, a raw string, or missing (`NaN`). -/
inductive Value where
  | num : Rat → Value
  | str : String → Value
  | na : Value
deriving DecidableEq, Repr, Inhabited

/-- Digit-string parser (used to model numeric coercion of strings). -/
def parseNatDigits (cs : List Char) : Option Nat :=
  if cs = [] then none
  else if cs.all (fun c => c.isDigit) then
    some (cs.foldl (fun acc c => acc * 10 + (c.toNat - 48)) 0)
  else none

/-- Integer parsing of a string, written over the character list so that
it is structurally computable. -/
def strToInt? (s : String) : Option Int :=
  match s.data with
  | '-' :: cs => (parseNatDigits cs).map (fun n => -(n : Int))
  | cs => (parseNatDigits cs).map (fun n => (n : Int))

/-- `pd.to_numeric` on one cell: numbers stay, `NaN` stays `NaN`,
strings must parse as integers (decimal strings are out of scope of the
claims). `none` means the cell does not coerce. -/
def coerceVal : Value → Option Value
  | .num q => some (.num q)
  | .str s => (strToInt? s).map (fun n => Value.num (n : Rat))
  | .na => some .na

/-- `pd.to_numeric(x, errors='ignore')` over a whole column/series:
all-or-nothing — if every cell coerces the column becomes numeric,
otherwise it is returned unchanged. -/
def toNumericList (vs : List Value) : List Value :=
  if vs.all (fun v => (coerceVal v).isSome) then
    vs.map (fun v => (coerceVal v).getD v)
  else vs

/-- A skbio `DistanceMatrix`: ordered ids plus the distance data. -/
structure DistanceMatrix where
  ids : List String
  d : String → String → Rat

/-- Modelled from the spec: skbio `DistanceMatrix.filter(ids, strict=…)`
(the library is an external collaborator). Strict mode fails when a
requested id is absent from the matrix; lenient mode silently keeps the
intersection, in the order of the request. -/
def DistanceMatrix.filter (dm : DistanceMatrix) (keep : List String)
    (strict : Bool) : Except String DistanceMatrix :=
  if strict ∧ ¬ (∀ i ∈ keep, i ∈ dm.ids) then
    .error "The following IDs are missing from the DistanceMatrix"
  else
    .ok { ids := keep.filter (fun i => i ∈ dm.ids), d := dm.d }

/-- Symmetric difference of two id collections (`ids1 ^ ids2` on Python
sets, represented on lists; the claims only inspect membership). -/
def idSymmDiff (l1 l2 : List String) : List String :=
  l1.filter (fun i => i ∉ l2) ++ l2.filter (fun i => i ∉ l1)

/-- `itertools.combinations(xs, 2)` in order. -/
def combinations2 {α : Type} : List α → List (α × α)
  | [] => []
  | x :: xs => xs.map (fun y => (x, y)) ++ combinations2 xs

/-- `', '.join(l)`. -/
def joinIds : List String → String
  | [] => ""
  | [x] => x
  | x :: y :: t => x ++ ", " ++ joinIds (y :: t)

/-- The `ValueError` message raised by `mantel` on mismatched ids: the
fixed text followed by the sorted, comma-joined mismatched ids. -/
def mantelMismatchMsg (mismatched : List String) : String :=
  "The following ID(s) are not contained in both distance matrices. " ++
  "Use `intersect_ids` to discard these mismatches and apply the " ++
  "Mantel test to only those IDs that are found in both distance " ++
  "matrices.\n\n" ++
  joinIds (mismatched.insertionSort (fun a b => a ≤ b))

/-- Scatter data extracted at the end of `mantel`: one point per
unordered pair of ids of the (filtered) first matrix. -/
def mantelScatter (dm1 dm2 : DistanceMatrix) : List (Rat × Rat) :=
  (combinations2 dm1.ids).map (fun p => (dm1.d p.1 p.2, dm2.d p.1 p.2))

/-- The id-handling core of `mantel`: computes `mismatched_ids` as the
symmetric difference of the id sets, raises when mismatches exist and
`intersect_ids` is false, strictly filters both matrices to the matched
ids when mismatches exist and `intersect_ids` is true, and returns the
matrices handed to the correlation test together with `mismatched_ids`
and the scatter data. -/
def mantel (dm1 dm2 : DistanceMatrix) (intersect_ids : Bool) :
    Except String (DistanceMatrix × DistanceMatrix × List String × List (Rat × Rat)) := do
  let mismatched_ids := idSymmDiff dm1.ids dm2.ids
  if ¬ intersect_ids ∧ ¬ mismatched_ids.isEmpty then
    throw (mantelMismatchMsg mismatched_ids)
  if ¬ mismatched_ids.isEmpty then
    -- `ids1 & ids2` on Python sets; set-iteration order is modelled by the
    -- first matrix's id order (the claims only inspect the id set).
    let matched_ids := dm1.ids.filter (fun i => i ∈ dm2.ids)
    let dm1f ← dm1.filter matched_ids true
    let dm2f ← dm2.filter matched_ids true
    return (dm1f, dm2f, mismatched_ids, mantelScatter dm1f dm2f)
  return (dm1, dm2, mismatched_ids, mantelScatter dm1 dm2)

/-- A sort key embedding cell values into a lexicographic order, so that
the Python orderings used by `sorted(metadata.groupby(...))` and by
pandas index sorting are modelled by a single linear order. Homogeneous
numeric values compare numerically and homogeneous strings compare
lexicographically, exactly as in Python; mixed-type comparisons (which
Python would reject) are resolved by a constructor rank. -/
def Value.key : Value → ℕ ×ₗ (ℚ ×ₗ String)
  | .num q => toLex (0, toLex (q, ""))
  | .str s => toLex (1, toLex (0, s))
  | .na => toLex (2, toLex (0, ""))

def Value.le (v w : Value) : Prop := v.key ≤ w.key

def Value.lt (v w : Value) : Prop := v.key < w.key

instance : DecidableRel Value.le :=
  fun v w => inferInstanceAs (Decidable (v.key ≤ w.key))

instance : DecidableRel Value.lt :=
  fun v w => inferInstanceAs (Decidable (v.key < w.key))

instance : IsTotal Value Value.le := ⟨fun v w => le_total v.key w.key⟩

instance : IsTrans Value Value.le := ⟨fun _ _ _ h1 h2 => le_trans h1 h2⟩

/-- `str()` rendering of a group label, used in boxplot labels. -/
def Value.render : Value → String
  | .num q => toString q
  | .str s => s
  | .na => "nan"

/-- The grouping construction of `beta_group_significance`:
`OrderedDict([(id, list(series.index)) for id, series in
sorted(metadata.groupby(metadata))])`. pandas `groupby` keys the groups
by the distinct non-missing values, `sorted` orders the group labels
ascending, and each group lists its sample ids in the metadata's row
order. -/
def groupby (md : List (String × Value)) : List (Value × List String) :=
  let labels :=
    (((md.map (fun p => p.2)).filter (fun v => v ≠ Value.na)).dedup).insertionSort Value.le
  labels.map (fun v => (v, (md.filter (fun p => p.2 = v)).map (fun p => p.1)))

/-- `pd.to_numeric(series, errors='ignore')` over an id-indexed series:
all-or-nothing, as for columns. -/
def toNumericSeries (md : List (String × Value)) : List (String × Value) :=
  if md.all (fun p => (coerceVal p.2).isSome) then
    md.map (fun p => (p.1, (coerceVal p.2).getD p.2))
  else md

/-- The metadata alignment of `beta_group_significance`: numeric
coercion, `.loc[list(distance_matrix.ids)]` (restriction/reindexing to
the matrix ids, missing ids yielding missing values), `.replace(r'',
nan)` and `.dropna()`. -/
def alignCategory (dmIds : List String) (md : List (String × Value)) :
    List (String × Value) :=
  let md1 := toNumericSeries md
  let md2 := dmIds.map (fun i => (i, (md1.lookup i).getD Value.na))
  let md3 := md2.map (fun p => if p.2 = Value.str "" then (p.1, Value.na) else p)
  md3.filter (fun p => p.2 ≠ Value.na)

/-- Alignment followed by the strict `distance_matrix.filter(metadata.index)`
of `beta_group_significance`. -/
def bgsFilterDM (dm : DistanceMatrix) (md : List (String × Value)) :
    Except String (DistanceMatrix × List (String × Value)) := do
  let mdA := alignCategory dm.ids md
  let dmf ← dm.filter (mdA.map (fun p => p.1)) true
  return (dmf, mdA)

/-- Result record of one run of the external significance test
(skbio `permanova`/`anosim`): the fields the pairwise table reads. -/
structure SigResult where
  sampleSize : Nat
  statistic : Rat
  pvalue : Rat
deriving DecidableEq, Repr

/-- One row of the pairwise results table, before the q-value column. -/
structure PairwiseRow where
  group1 : Value
  group2 : Value
  sampleSize : Nat
  permutations : Nat
  statistic : Rat
  pvalue : Rat
deriving DecidableEq, Repr

/-- `_get_pairwise_group_significance_stats`: restrict the metadata and
(strictly) the distance matrix to the two groups' samples and re-run the
significance test. The test itself is the external collaborator `sig`. -/
def getPairwiseStats (dm : DistanceMatrix) (g1 g2 : Value)
    (groupings : List (Value × List String)) (metadata : List (String × Value))
    (sig : DistanceMatrix → List (String × Value) → Nat → SigResult)
    (permutations : Nat) : Except String SigResult := do
  let samples := (groupings.lookup g1).getD [] ++ (groupings.lookup g2).getD []
  let md := samples.map (fun s => (s, (metadata.lookup s).getD Value.na))
  let dmf ← dm.filter samples true
  return sig dmf md permutations

/-- The pairwise collection loop of `beta_group_significance`: one row
per `itertools.combinations(groupings, 2)` pair, in that order. -/
def pairwiseRows (dm : DistanceMatrix) (groupings : List (Value × List String))
    (metadata : List (String × Value))
    (sig : DistanceMatrix → List (String × Value) → Nat → SigResult)
    (permutations : Nat) : Except String (List PairwiseRow) :=
  (combinations2 (groupings.map (fun p => p.1))).mapM (fun pr => do
    let r ← getPairwiseStats dm pr.1 pr.2 groupings metadata sig permutations
    return { group1 := pr.1, group2 := pr.2, sampleSize := r.sampleSize,
             permutations := permutations, statistic := r.statistic,
             pvalue := r.pvalue })

/-- Suffix-minima (`np.minimum.accumulate` on the reversed list). -/
def cumMinRev : List Rat → List Rat
  | [] => []
  | x :: xs =>
    match cumMinRev xs with
    | [] => [x]
    | y :: ys => min x y :: y :: ys

/-- `statsmodels.multipletests(p, method='fdr_bh')[1]`: argsort the
p-values ascending, scale the i-th smallest by `m / i`, take suffix
minima, clip at 1, and scatter the corrected values back to the original
positions. (The stable sort used here agrees with the library up to tied
p-values, which receive equal q-values either way.) -/
def bhQvalues (ps : List Rat) : List Rat :=
  let m := ps.length
  let sorted := ps.enum.insertionSort (fun a b => a.2 ≤ b.2)
  let raw := sorted.enum.map
    (fun t => t.2.2 * (m : Rat) / ((t.1 : Rat) + 1))
  let qs := (cumMinRev raw).map (fun q => min q 1)
  let assignment := sorted.zip qs
  (List.range m).map (fun j =>
    match assignment.find? (fun t => t.1.1 == j) with
    | some t => t.2
    | none => 0)

/-- Sort key of a pairwise row (with its q-value): the lexicographic
(Group 1, Group 2) pair, as used by `sort_index` on the two-level index. -/
def pairKey (r : PairwiseRow × Rat) : (ℕ ×ₗ (ℚ ×ₗ String)) ×ₗ (ℕ ×ₗ (ℚ ×ₗ String)) :=
  toLex (r.1.group1.key, r.1.group2.key)

def rowLe (a b : PairwiseRow × Rat) : Prop := pairKey a ≤ pairKey b

instance : DecidableRel rowLe :=
  fun a b => inferInstanceAs (Decidable (pairKey a ≤ pairKey b))

instance : IsTotal (PairwiseRow × Rat) rowLe :=
  ⟨fun a b => le_total (pairKey a) (pairKey b)⟩

instance : IsTrans (PairwiseRow × Rat) rowLe := ⟨fun _ _ _ h1 h2 => le_trans h1 h2⟩

/-- The pairwise-results post-processing of `beta_group_significance`:
collect the rows in production order, compute the BH q-values over the
p-value column in that order, append them as a column (`zip`), and sort
by the (Group 1, Group 2) index. Only the sorted table is produced; no
copy in production order survives. -/
def pairwiseTable (dm : DistanceMatrix) (groupings : List (Value × List String))
    (metadata : List (String × Value))
    (sig : DistanceMatrix → List (String × Value) → Nat → SigResult)
    (permutations : Nat) : Except String (List (PairwiseRow × Rat)) := do
  let rows ← pairwiseRows dm groupings metadata sig permutations
  let qs := bhQvalues (rows.map (fun r => r.pvalue))
  return (rows.zip qs).insertionSort rowLe

/-- `'%s (n=%d)' % (label, count)`. -/
def boxLabel (v : Value) (n : Nat) : String :=
  v.render ++ " (n=" ++ toString n ++ ")"

/-- `_get_distance_boxplot_data`: the within-group distances (each
unordered pair once, via `group[:i]` prefixes), then one between-group
list per other group in grouping order, with the matching
`"<label> (n=<count>)"` tick labels. -/
def _get_distance_boxplot_data (dm : DistanceMatrix) (group_id : Value)
    (groupings : List (Value × List String)) : List (List Rat) × List String :=
  let group := (groupings.lookup group_id).getD []
  let within := group.enum.flatMap
    (fun p => (group.take p.1).map (fun sid2 => dm.d p.2 sid2))
  let others := groupings.filter (fun p => p.1 ≠ group_id)
  let betweens := others.map (fun p =>
    (group.flatMap (fun sid1 => p.2.map (fun sid2 => dm.d sid1 sid2)), p.1))
  (within :: betweens.map (fun b => b.1),
   boxLabel group_id within.length ::
     betweens.map (fun b => boxLabel b.2 b.1.length))

/-- A pandas DataFrame: row index plus named columns (each column listing
its cells in row order). -/
structure DataFrame where
  index : List String
  cols : List (String × List Value)

/-- A column has numeric dtype iff no cell is a raw string
(`select_dtypes([numpy.number])`). -/
def colIsNumeric (vals : List Value) : Bool :=
  vals.all (fun v => match v with | .str _ => false | _ => true)

/-- `df.apply(lambda x: pd.to_numeric(x, errors='ignore'))`. -/
def bioenvCoerce (df : DataFrame) : DataFrame :=
  ⟨df.index, df.cols.map (fun c => (c.1, toNumericList c.2))⟩

/-- `df.select_dtypes([numpy.number]).dropna()`: keep the numeric
columns, then drop every row with a missing value in any kept column. -/
def selectNumericDropna (df : DataFrame) : DataFrame :=
  let numCols := df.cols.filter (fun c => colIsNumeric c.2)
  let keptRows := df.index.enum.filter
    (fun p => numCols.all (fun c => c.2.getD p.1 Value.na ≠ Value.na))
  ⟨keptRows.map (fun p => p.2),
   numCols.map (fun c => (c.1, keptRows.map (fun p => c.2.getD p.1 Value.na)))⟩

/-- pandas sample variance (`ddof=1`); `none` models the `NaN` variance
of a column with fewer than two rows (which `df.var() != 0` keeps). -/
def colVar (vals : List Value) : Option Rat :=
  let xs := vals.map (fun v => match v with | .num q => q | _ => 0)
  if xs.length < 2 then none
  else
    let n : Rat := xs.length
    let mean := xs.sum / n
    some ((xs.map (fun x => (x - mean) ^ 2)).sum / (n - 1))

/-- `df.loc[:, df.var() != 0]`. -/
def dropZeroVar (df : DataFrame) : DataFrame :=
  ⟨df.index, df.cols.filter (fun c => colVar c.2 ≠ some 0)⟩

/-- The data outputs of `bioenv` that the report reads. -/
structure BioenvOutput where
  filtered_categorical_cols : List String
  filtered_zero_variance_cols : List String
  df : DataFrame
  dmFiltered : Except String DistanceMatrix

/-- The data pipeline of `bioenv`: per-column numeric coercion, the
categorical-column filter with its set-difference report, the
zero-variance filter with its report, and the lenient distance-matrix
filter to the surviving rows. -/
def bioenv (dm : DistanceMatrix) (metadata : DataFrame) : BioenvOutput :=
  let df0 := bioenvCoerce metadata
  let pre1 := df0.cols.map (fun c => c.1)
  let df1 := selectNumericDropna df0
  let cat := pre1.filter (fun c => c ∉ df1.cols.map (fun x => x.1))
  let pre2 := df1.cols.map (fun c => c.1)
  let df2 := dropZeroVar df1
  let zv := pre2.filter (fun c => c ∉ df2.cols.map (fun x => x.1))
  ⟨cat, zv, df2, dm.filter df2.index false⟩

/-- One row of skbio `pwmantel`'s output DataFrame: the statistic plus
the further columns (`p-value`, `n`, `method`, `permutations`,
`alternative hypothesis`). With zero permutations the p-value is `NaN`
(`none`). -/
structure PwmantelRow where
  statistic : Rat
  pvalue : Option Rat
  n : Nat
  method : String
  permutations : Nat
  altHyp : String
deriving DecidableEq, Repr

/-- Modelled from the spec: `phylogenetic_metrics()` is imported from
`._method`, which is not under `src/`; the spec only says it is "a fixed
set of phylogenetically-aware metrics", modelled here as the UniFrac
family. -/
def phylogenetic_metrics : List String :=
  ["unweighted_unifrac", "weighted_unifrac"]

def phyloErrHead : String := "A phylogenetic metric ("

def phyloErrTail : String :=
  ") was requested, but a phylogenetic tree was not provided. " ++
  "Phylogeny must be provided when using a phylogenetic diversity metric."

/-- The beta-function strategy resolved once per `beta_rarefaction`
call: the phylogenetic partial application or the plain metric. -/
inductive BetaStrategy where
  | phylo : BetaStrategy
  | nonphylo : BetaStrategy
deriving DecidableEq, Repr

/-- The metric/phylogeny check opening `beta_rarefaction`: a phylogenetic
metric without a tree raises a `ValueError` naming the metric; otherwise
the appropriate beta function is selected. -/
def chooseBetaFunc (metric : String) (phylogeny : Option Unit) :
    Except String BetaStrategy :=
  if metric ∈ phylogenetic_metrics then
    match phylogeny with
    | none => .error (phyloErrHead ++ metric ++ phyloErrTail)
    | some _ => .ok .phylo
  else .ok .nonphylo

/-- The two data products of `beta_rarefaction`'s correlation step: the
heatmap input (`sm = sm_df[['statistic']]`) and the data written to
`rarefaction-iteration-correlation.tsv` (`sm_df.to_csv`, the full
DataFrame). -/
structure RarefactionCorr where
  heatmapData : List ((Nat × Nat) × Rat)
  tsvData : List ((Nat × Nat) × PwmantelRow)
deriving DecidableEq, Repr

/-- The correlation step of `beta_rarefaction`: `pwmantel` (external) is
invoked on the iteration matrices with the chosen method, zero
permutations and strict id matching; the statistic-only projection feeds
the heatmap while the full DataFrame is written to the tsv file. -/
def beta_rarefaction_corr
    (pwmantel : List DistanceMatrix → String → Nat → Bool →
      List ((Nat × Nat) × PwmantelRow))
    (dms : List DistanceMatrix) (correlation_method : String) :
    RarefactionCorr :=
  let sm_df := pwmantel dms correlation_method 0 true
  let sm := sm_df.map (fun r => (r.1, r.2.statistic))
  ⟨sm, sm_df⟩

/-! Concrete inputs used by the witness theorems. -/

def wd : String → String → Rat := fun i j => if i = j then 0 else 1

def wdmAB : DistanceMatrix := ⟨["a", "b"], wd⟩

def wdmBA : DistanceMatrix := ⟨["b", "a"], wd⟩

def wdmABC : DistanceMatrix := ⟨["a", "b", "c"], wd⟩

def wdmABD : DistanceMatrix := ⟨["a", "b", "d"], wd⟩

def wdmABCDE : DistanceMatrix := ⟨["a", "b", "c", "d", "e"], wd⟩

/-- Metadata series `[1, 2, 3, '', 5]` on ids `a..e` (spec scenario). -/
def wmd5 : List (String × Value) :=
  [("a", .num 1), ("b", .num 2), ("c", .num 3), ("d", .str ""), ("e", .num 5)]

def wdmS : DistanceMatrix := ⟨["s1", "s2"], wd⟩

/-- Three-column metadata: one all-categorical column, one zero-variance
numeric column, one surviving numeric column (spec scenario). -/
def wmeta : DataFrame :=
  ⟨["s1", "s2"],
   [("c1", [.str "x", .str "y"]), ("c2", [.num 1, .num 1]),
    ("c3", [.num 1, .num 2])]⟩

def wmdG : List (String × Value) :=
  [("a", .num 2), ("b", .num 1), ("c", .num 2)]

/-- A grouping whose labels are deliberately not in ascending order. -/
def wg3 : List (Value × List String) :=
  [(.num 3, ["c"]), (.num 1, ["a"]), (.num 2, ["b"])]

def wmdC3 : List (String × Value) :=
  [("a", .num 1), ("b", .num 2), ("c", .num 3)]

/-- A stub significance test with a p-value depending on the submatrix. -/
def wsig : DistanceMatrix → List (String × Value) → Nat → SigResult :=
  fun dmf _ _ => ⟨dmf.ids.length, 0, if "a" ∈ dmf.ids then 1 else 2⟩

def wpmRow : PwmantelRow := ⟨1, none, 3, "spearman", 0, "two-sided"⟩

/-- Two stub `pwmantel` outputs agreeing on every statistic but
differing in the `n` column. -/
def wpmA : List DistanceMatrix → String → Nat → Bool →
    List ((Nat × Nat) × PwmantelRow) :=
  fun _ _ p _ => [((0, 1), { wpmRow with permutations := p })]

def wpmB : List DistanceMatrix → String → Nat → Bool →
    List ((Nat × Nat) × PwmantelRow) :=
  fun _ _ p _ => [((0, 1), { wpmRow with permutations := p, n := 4 })]

/-- A two-group grouping over the ids of `wdmABC`. -/
def wgB : List (Value × List String) :=
  [(.str "g1", ["a", "b"]), (.str "g2", ["c"])]

/-- The pairwise rows produced from `wg3`/`wmdC3`/`wsig` with 9
permutations, in production order. -/
def wrows : List PairwiseRow :=
  [⟨.num 3, .num 1, 2, 9, 0, 1⟩,
   ⟨.num 3, .num 2, 2, 9, 0, 2⟩,
   ⟨.num 1, .num 2, 2, 9, 0, 1⟩]

/-! # Theorems -/

theorem mem_idSymmDiff (l1 l2 : List String) (x : String) :
    x ∈ idSymmDiff l1 l2 ↔ ¬ (x ∈ l1 ↔ x ∈ l2) := by
  simp only [idSymmDiff, List.mem_append, List.mem_filter, decide_eq_true_eq]
  tauto

theorem idSymmDiff_eq_nil_iff (l1 l2 : List String) :
    idSymmDiff l1 l2 = [] ↔ (∀ x, x ∈ l1 ↔ x ∈ l2) := by
  constructor
  · intro h x
    have hx := mem_idSymmDiff l1 l2 x
    rw [h] at hx
    simpa using hx
  · intro h
    rw [List.eq_nil_iff_forall_not_mem]
    intro x hx
    exact (mem_idSymmDiff l1 l2 x).mp hx (h x)

theorem distFilter_ok (dm : DistanceMatrix) (keep : List String)
    (h : ∀ i ∈ keep, i ∈ dm.ids) :
    dm.filter keep true = .ok ⟨keep, dm.d⟩ := by
  have hf : keep.filter (fun i => decide (i ∈ dm.ids)) = keep :=
    List.filter_eq_self.mpr (fun a ha => by simpa using h a ha)
  unfold DistanceMatrix.filter
  rw [if_neg (fun hc => hc.2 h), hf]

theorem joinIdsHasEach {x : String} : ∀ {l : List String}, x ∈ l →
    x.data <:+: (joinIds l).data := by
  intro l
  induction l with
  | nil => intro hx; cases hx
  | cons a t ih =>
    intro hx
    match t, hx with
    | [], hx =>
      have : x = a := by simpa using hx
      subst this
      exact List.infix_refl _
    | b :: t', hx =>
      rcases List.mem_cons.mp hx with rfl | hmem
      · show x.data <:+: (x ++ ", " ++ joinIds (b :: t')).data
        exact ⟨[], (", " ++ joinIds (b :: t')).data, by simp⟩
      · have h2 := ih hmem
        show x.data <:+: (a ++ ", " ++ joinIds (b :: t')).data
        refine h2.trans ⟨(a ++ ", ").data, [], ?_⟩
        simp

theorem mantelMismatchMsg_mentions {mismatched : List String} {x : String}
    (hx : x ∈ mismatched) :
    x.data <:+: (mantelMismatchMsg mismatched).data := by
  have hs : x ∈ mismatched.insertionSort (fun a b => a ≤ b) := by
    rw [List.mem_insertionSort]
    exact hx
  have h2 := joinIdsHasEach hs
  unfold mantelMismatchMsg
  refine h2.trans ⟨("The following ID(s) are not contained in both distance matrices. " ++
    "Use `intersect_ids` to discard these mismatches and apply the " ++
    "Mantel test to only those IDs that are found in both distance " ++
    "matrices.\n\n").data, [], ?_⟩
  simp only [String.data_append, List.append_nil, List.append_assoc]

/-- C10: when the two identifier sets coincide, `mantel` leaves both
matrices untouched — `mismatched_ids` is empty, no filtering branch
runs, the matrices handed to the correlation test and the scatter
extraction are the originals — and the result does not depend on
`intersect_ids`; conversely `mismatched_ids` is empty only in that
case. -/
theorem mantel_identical_ids_no_filtering (dm1 dm2 : DistanceMatrix) :
    (idSymmDiff dm1.ids dm2.ids = [] ↔ ∀ x, x ∈ dm1.ids ↔ x ∈ dm2.ids) ∧
    ((∀ x, x ∈ dm1.ids ↔ x ∈ dm2.ids) →
      ∀ b : Bool, mantel dm1 dm2 b = .ok (dm1, dm2, [], mantelScatter dm1 dm2)) := by
  refine ⟨idSymmDiff_eq_nil_iff _ _, fun h b => ?_⟩
  have he : idSymmDiff dm1.ids dm2.ids = [] := (idSymmDiff_eq_nil_iff _ _).mpr h
  simp [mantel, he]
  rfl

theorem mantel_identical_ids_no_filtering_witness :
    mantel wdmAB wdmBA true = .ok (wdmAB, wdmBA, [], mantelScatter wdmAB wdmBA) := by
  have h := mantel_identical_ids_no_filtering wdmAB wdmBA
  exact h.2 (h.1.mp (by decide)) true

/-- C1: `mantel` computes `mismatched_ids` as exactly the symmetric
difference of the two identifier sets; when it is non-empty and
`intersect_ids` is false the call fails with the error message that
mentions every mismatched id, and when it is non-empty and
`intersect_ids` is true both matrices are filtered so that each filtered
identifier set is exactly the intersection of the two original
identifier sets. -/
theorem mantel_mismatched_ids_and_filtering (dm1 dm2 : DistanceMatrix) :
    (∀ x, x ∈ idSymmDiff dm1.ids dm2.ids ↔ ¬ (x ∈ dm1.ids ↔ x ∈ dm2.ids)) ∧
    (idSymmDiff dm1.ids dm2.ids ≠ [] →
      (mantel dm1 dm2 false
          = .error (mantelMismatchMsg (idSymmDiff dm1.ids dm2.ids)) ∧
        ∀ x ∈ idSymmDiff dm1.ids dm2.ids,
          x.data <:+: (mantelMismatchMsg (idSymmDiff dm1.ids dm2.ids)).data) ∧
      ∃ f1 f2, mantel dm1 dm2 true
          = .ok (f1, f2, idSymmDiff dm1.ids dm2.ids, mantelScatter f1 f2) ∧
        (∀ x, x ∈ f1.ids ↔ x ∈ dm1.ids ∧ x ∈ dm2.ids) ∧
        (∀ x, x ∈ f2.ids ↔ x ∈ dm1.ids ∧ x ∈ dm2.ids)) := by
  refine ⟨mem_idSymmDiff _ _, fun h => ⟨⟨?_, fun x hx => mantelMismatchMsg_mentions hx⟩, ?_⟩⟩
  · simp [mantel, h]
    rfl
  · set matched := dm1.ids.filter (fun i => i ∈ dm2.ids) with hm
    have h1 : ∀ i ∈ matched, i ∈ dm1.ids := fun i hi => (List.mem_filter.mp hi).1
    have h2 : ∀ i ∈ matched, i ∈ dm2.ids := fun i hi => by
      have := (List.mem_filter.mp hi).2
      simpa using this
    refine ⟨⟨matched, dm1.d⟩, ⟨matched, dm2.d⟩, ?_, ?_, ?_⟩
    · have e1 := distFilter_ok dm1 matched h1
      have e2 := distFilter_ok dm2 matched h2
      simp [mantel, h, hm] at e1 e2 ⊢
      rw [e1, e2]
      rfl
    · intro x
      simp [hm, List.mem_filter]
    · intro x
      simp [hm, List.mem_filter]

theorem mantel_mismatched_ids_and_filtering_witness :
    mantel wdmABC wdmABD false = .error (mantelMismatchMsg ["c", "d"]) ∧
    mantel wdmABC wdmABD true
      = .ok (⟨["a", "b"], wdmABC.d⟩, ⟨["a", "b"], wdmABD.d⟩, ["c", "d"],
          mantelScatter ⟨["a", "b"], wdmABC.d⟩ ⟨["a", "b"], wdmABD.d⟩) := by
  constructor
  · have h := (mantel_mismatched_ids_and_filtering wdmABC wdmABD).2 (by decide)
    have e : idSymmDiff wdmABC.ids wdmABD.ids = ["c", "d"] := by decide
    rw [← e]
    exact h.1.1
  · rfl

/-- C8: when the requested metric is in the fixed set of
phylogenetically-aware metrics and no phylogenetic tree is supplied,
`beta_rarefaction` fails with the error naming the metric; when a tree
is supplied, or the metric is non-phylogenetic, no such error is
raised. -/
theorem beta_rarefaction_phylogenetic_metric_check (metric : String)
    (phylogeny : Option Unit) :
    (metric ∈ phylogenetic_metrics → phylogeny = none →
      chooseBetaFunc metric phylogeny
          = .error (phyloErrHead ++ metric ++ phyloErrTail) ∧
      metric.data <:+: (phyloErrHead ++ metric ++ phyloErrTail).data) ∧
    (∀ t, phylogeny = some t → ∃ s, chooseBetaFunc metric phylogeny = .ok s) ∧
    (metric ∉ phylogenetic_metrics →
      chooseBetaFunc metric phylogeny = .ok .nonphylo) := by
  refine ⟨fun hm hp => ?_, fun t ht => ?_, fun hm => ?_⟩
  · subst hp
    refine ⟨by simp [chooseBetaFunc, hm], ?_⟩
    exact ⟨phyloErrHead.data, phyloErrTail.data,
      by simp [String.data_append]⟩
  · subst ht
    by_cases hm : metric ∈ phylogenetic_metrics
    · exact ⟨.phylo, by simp [chooseBetaFunc, hm]⟩
    · exact ⟨.nonphylo, by simp [chooseBetaFunc, hm]⟩
  · simp [chooseBetaFunc, hm]

theorem beta_rarefaction_phylogenetic_metric_check_witness :
    chooseBetaFunc "unweighted_unifrac" none
        = .error (phyloErrHead ++ "unweighted_unifrac" ++ phyloErrTail) ∧
    (∃ s, chooseBetaFunc "unweighted_unifrac" (some ()) = .ok s) ∧
    chooseBetaFunc "braycurtis" none = .ok .nonphylo :=
  ⟨((beta_rarefaction_phylogenetic_metric_check _ _).1 (by decide) rfl).1,
   (beta_rarefaction_phylogenetic_metric_check _ _).2.1 () rfl,
   (beta_rarefaction_phylogenetic_metric_check _ _).2.2 (by decide)⟩

/-- C7 counterexample: the data `beta_rarefaction` writes to the
tab-separated file is not a function of the statistic column alone —
two `pwmantel` outputs that agree on every statistic yield different
tsv contents — so the written tsv does not retain only the statistic
dimension of the pairwise-test output. (The statistic-only projection
feeds the heatmap instead.) -/
theorem beta_rarefaction_tsv_not_statistic_only :
    (beta_rarefaction_corr wpmA [] "spearman").heatmapData
        = (beta_rarefaction_corr wpmB [] "spearman").heatmapData ∧
    (beta_rarefaction_corr wpmA [] "spearman").tsvData
        ≠ (beta_rarefaction_corr wpmB [] "spearman").tsvData := by decide

/-- C7 (amended): the pairwise correlation between iteration distance
matrices is computed with zero permutations and strict id matching; the
heatmap input retains only the statistic dimension of that output
(it is a function of the statistics alone), while the tab-separated
file is written from the full pairwise-test output. -/
theorem beta_rarefaction_correlation_wiring
    (pwmantel : List DistanceMatrix → String → Nat → Bool →
      List ((Nat × Nat) × PwmantelRow))
    (dms : List DistanceMatrix) (correlation_method : String) :
    (beta_rarefaction_corr pwmantel dms correlation_method).tsvData
        = pwmantel dms correlation_method 0 true ∧
    (beta_rarefaction_corr pwmantel dms correlation_method).heatmapData
        = (pwmantel dms correlation_method 0 true).map
            (fun r => (r.1, r.2.statistic)) ∧
    ∀ pw2 : List DistanceMatrix → String → Nat → Bool →
        List ((Nat × Nat) × PwmantelRow),
      (pw2 dms correlation_method 0 true).map (fun r => (r.1, r.2.statistic))
          = (pwmantel dms correlation_method 0 true).map
              (fun r => (r.1, r.2.statistic)) →
      (beta_rarefaction_corr pw2 dms correlation_method).heatmapData
        = (beta_rarefaction_corr pwmantel dms correlation_method).heatmapData :=
  ⟨rfl, rfl, fun _ h => h⟩

theorem beta_rarefaction_correlation_wiring_witness :
    (beta_rarefaction_corr wpmA [] "spearman").tsvData
        = wpmA [] "spearman" 0 true ∧
    (beta_rarefaction_corr wpmB [] "spearman").heatmapData
        = (beta_rarefaction_corr wpmA [] "spearman").heatmapData :=
  ⟨(beta_rarefaction_correlation_wiring wpmA [] "spearman").1,
   (beta_rarefaction_correlation_wiring wpmA [] "spearman").2.2 wpmB (by decide)⟩

theorem sum_range_eq_choose (n : ℕ) : (List.range n).sum = n.choose 2 := by
  induction n with
  | zero => rfl
  | succ k ih =>
    have hc : (k + 1).choose 2 = k.choose 1 + k.choose 2 :=
      Nat.choose_succ_succ k 1
    rw [List.range_succ, List.sum_append, ih, hc, Nat.choose_one_right]
    simp [Nat.add_comm]

theorem within_length (f : String → String → Rat) (l : List String) :
    (l.enum.flatMap (fun p => (l.take p.1).map (f p.2))).length
      = l.length.choose 2 := by
  rw [← sum_range_eq_choose, List.length_flatMap]
  simp only [Function.comp_def]
  have h1 : (l.enum.map fun p => ((l.take p.1).map (f p.2)).length)
      = l.enum.map fun p => min p.1 l.length := by
    apply List.map_congr_left
    intro p _
    simp [List.length_take]
  have h2 : (l.enum.map fun p => min p.1 l.length)
      = (List.range l.length).map (fun i => min i l.length) := by
    rw [List.enum_eq_zip_range,
      show (fun (p : ℕ × String) => min p.1 l.length)
        = (fun i => min i l.length) ∘ Prod.fst from rfl,
      ← List.map_map, List.map_fst_zip]
    simp
  have h3 : (List.range l.length).map (fun i => min i l.length)
      = List.range l.length := by
    have := List.map_congr_left (l := List.range l.length)
      (f := fun i => min i l.length) (g := id) ?_
    · simpa using this
    · intro i hi
      simp only [id]
      exact Nat.min_eq_left (Nat.le_of_lt (List.mem_range.mp hi))
  rw [h1, h2, h3]

theorem between_length (f : String → String → Rat) (g other : List String) :
    (g.flatMap (fun s1 => other.map (f s1))).length
      = g.length * other.length := by
  induction g with
  | nil => simp
  | cons a t ih =>
    simp [ih]
    ring

/-- C3: for a target group of size `n`, the distance extractor returns
the within-group list with exactly `C(n,2)` entries first, then one
between-group list per other group (grouping iteration order, target
excluded) with exactly `n·mᵢ` entries, each list paired with the label
`"<label> (n=<count>)"` where the count is that list's length. -/
theorem distance_boxplot_counts_and_labels (dm : DistanceMatrix)
    (group_id : Value) (groupings : List (Value × List String))
    (g : List String) (hg : groupings.lookup group_id = some g) :
    (_get_distance_boxplot_data dm group_id groupings).1.length
        = 1 + (groupings.filter (fun p => p.1 ≠ group_id)).length ∧
    (_get_distance_boxplot_data dm group_id groupings).2.length
        = 1 + (groupings.filter (fun p => p.1 ≠ group_id)).length ∧
    (∃ w, (_get_distance_boxplot_data dm group_id groupings).1.head? = some w ∧
      w.length = g.length.choose 2 ∧
      (_get_distance_boxplot_data dm group_id groupings).2.head?
        = some (boxLabel group_id w.length)) ∧
    ∀ k (hk : k < (groupings.filter (fun p => p.1 ≠ group_id)).length),
      ∃ bl, (_get_distance_boxplot_data dm group_id groupings).1.get? (k + 1)
          = some bl ∧
        bl.length = g.length *
          ((groupings.filter (fun p => p.1 ≠ group_id)).get ⟨k, hk⟩).2.length ∧
        (_get_distance_boxplot_data dm group_id groupings).2.get? (k + 1)
          = some (boxLabel
              ((groupings.filter (fun p => p.1 ≠ group_id)).get ⟨k, hk⟩).1
              bl.length) := by
  have e1 : (_get_distance_boxplot_data dm group_id groupings).1
      = (g.enum.flatMap (fun p => (g.take p.1).map (fun sid2 => dm.d p.2 sid2)))
        :: (groupings.filter (fun p => p.1 ≠ group_id)).map
             (fun p => g.flatMap (fun sid1 => p.2.map (fun sid2 => dm.d sid1 sid2))) := by
    simp [_get_distance_boxplot_data, hg, List.map_map, Function.comp]
  have e2 : (_get_distance_boxplot_data dm group_id groupings).2
      = boxLabel group_id
          (g.enum.flatMap (fun p => (g.take p.1).map (fun sid2 => dm.d p.2 sid2))).length
        :: (groupings.filter (fun p => p.1 ≠ group_id)).map
             (fun p => boxLabel p.1
               (g.flatMap (fun sid1 => p.2.map (fun sid2 => dm.d sid1 sid2))).length) := by
    simp [_get_distance_boxplot_data, hg, List.map_map, Function.comp]
  refine ⟨?_, ?_, ?_, ?_⟩
  · rw [e1]
    simp [Nat.add_comm]
  · rw [e2]
    simp [Nat.add_comm]
  · exact ⟨g.enum.flatMap (fun p => (g.take p.1).map (fun sid2 => dm.d p.2 sid2)),
      by rw [e1]; rfl, within_length dm.d g, by rw [e2]; rfl⟩
  · intro k hk
    refine ⟨g.flatMap (fun sid1 =>
      ((groupings.filter (fun p => p.1 ≠ group_id)).get ⟨k, hk⟩).2.map
        (fun sid2 => dm.d sid1 sid2)), ?_, between_length _ _ _, ?_⟩
    · rw [e1]
      simp only [List.get?_cons_succ, List.get?_map]
      rw [List.get?_eq_get hk]
      rfl
    · rw [e2]
      simp only [List.get?_cons_succ, List.get?_map]
      rw [List.get?_eq_get hk]
      simp [Option.map_some', between_length]

theorem distance_boxplot_counts_and_labels_witness :
    (_get_distance_boxplot_data wdmABC (.str "g1") wgB).1.length = 2 ∧
    (∃ w, (_get_distance_boxplot_data wdmABC (.str "g1") wgB).1.head? = some w ∧
      w.length = 1 ∧
      (_get_distance_boxplot_data wdmABC (.str "g1") wgB).2.head?
        = some (boxLabel (.str "g1") w.length)) ∧
    (∃ bl, (_get_distance_boxplot_data wdmABC (.str "g1") wgB).1.get? 1
        = some bl ∧ bl.length = 2) := by
  have h := distance_boxplot_counts_and_labels wdmABC (.str "g1") wgB
    ["a", "b"] (by decide)
  refine ⟨by rw [h.1]; decide, ?_, ?_⟩
  · obtain ⟨w, h1, h2, h3⟩ := h.2.2.1
    exact ⟨w, h1, by rw [h2]; decide, h3⟩
  · obtain ⟨bl, hb1, hb2, _⟩ := h.2.2.2 0 (by decide)
    exact ⟨bl, hb1, by rw [hb2]; decide⟩

theorem Value.key_injective : Function.Injective Value.key := by
  intro v w h
  cases v <;> cases w <;> simp_all [Value.key]

theorem sorted_lt_of_sorted_le_nodup {l : List Value}
    (hs : l.Sorted Value.le) (hn : l.Nodup) : l.Sorted Value.lt := by
  refine (hs.and hn).imp ?_
  rintro a b ⟨hle, hne⟩
  exact lt_of_le_of_ne hle (fun e => hne (Value.key_injective e))

theorem groupby_group_eq {md : List (String × Value)} {v : Value}
    {g : List String} (hvg : (v, g) ∈ groupby md) :
    g = (md.filter (fun p => p.2 = v)).map (fun p => p.1) := by
  simp only [groupby, List.mem_map] at hvg
  obtain ⟨v', _, he⟩ := hvg
  cases he
  rfl

/-- C6: the grouping produced by `beta_group_significance` lists the
groups in strictly ascending label order; its labels are exactly the
distinct non-missing metadata values; and each group's sample ids are
the metadata rows carrying that value, in the metadata's row order. -/
theorem bgs_grouping_ordered (md : List (String × Value)) :
    ((groupby md).map (fun p => p.1)).Sorted Value.lt ∧
    (∀ v, v ∈ (groupby md).map (fun p => p.1) ↔
      v ≠ Value.na ∧ v ∈ md.map (fun p => p.2)) ∧
    ∀ v g, (v, g) ∈ groupby md →
      g = (md.filter (fun p => p.2 = v)).map (fun p => p.1) := by
  have hlabels : (groupby md).map (fun p => p.1)
      = (((md.map (fun p => p.2)).filter
          (fun v => v ≠ Value.na)).dedup).insertionSort Value.le := by
    simp only [groupby, List.map_map]
    have hid : ((fun p : Value × List String => p.1) ∘
        (fun v : Value =>
          (v, (md.filter (fun p => p.2 = v)).map (fun p => p.1)))) = id := rfl
    rw [hid, List.map_id]
  refine ⟨?_, ?_, fun v g hvg => groupby_group_eq hvg⟩
  · rw [hlabels]
    exact sorted_lt_of_sorted_le_nodup
      (List.sorted_insertionSort Value.le _)
      (((List.perm_insertionSort Value.le _).nodup_iff).mpr
        (List.nodup_dedup _))
  · intro v
    rw [hlabels, List.mem_insertionSort, List.mem_dedup, List.mem_filter]
    simp [And.comm]

theorem bgs_grouping_ordered_witness :
    ((groupby wmdG).map (fun p => p.1)).Sorted Value.lt ∧
    (Value.num 2 ∈ (groupby wmdG).map (fun p => p.1)) ∧
    ["a", "c"] = (wmdG.filter (fun p => p.2 = Value.num 2)).map (fun p => p.1) := by
  have h := bgs_grouping_ordered wmdG
  exact ⟨h.1, (h.2.1 _).mpr ⟨by decide, by decide⟩,
    h.2.2 (Value.num 2) ["a", "c"] (by decide)⟩

theorem lookup_map_value (f : Value → Value) (md : List (String × Value))
    (i : String) :
    (md.map (fun p => (p.1, f p.2))).lookup i = (md.lookup i).map f := by
  induction md with
  | nil => rfl
  | cons a t ih =>
    obtain ⟨k, v⟩ := a
    by_cases h : i = k
    · subst h
      simp [List.lookup]
    · have hb : (i == k) = false := by simp [h]
      simp [List.lookup, hb, ih]

theorem lookup_mem {α β : Type} [BEq α] [LawfulBEq α] {l : List (α × β)}
    {k : α} {b : β} (h : l.lookup k = some b) : (k, b) ∈ l := by
  induction l with
  | nil => cases h
  | cons a t ih =>
    obtain ⟨k', b'⟩ := a
    by_cases hk : k = k'
    · subst hk
      simp [List.lookup] at h
      simp [h]
    · have hb : (k == k') = false := by simp [hk]
      simp [List.lookup, hb] at h
      exact List.mem_cons_of_mem _ (ih h)

theorem align_chain (g : String → Value) (ids : List String) :
    ((ids.map (fun i => (i, g i))).map
      (fun p => if p.2 = Value.str "" then (p.1, Value.na) else p)).filter
      (fun p => p.2 ≠ Value.na)
    = (ids.filter (fun i => g i ≠ Value.na ∧ g i ≠ Value.str "")).map
        (fun i => (i, g i)) := by
  induction ids with
  | nil => rfl
  | cons a t ih =>
    simp at ih
    cases hga : g a with
    | na => simp [hga, ih]
    | num q => simp [hga, ih]
    | str s =>
      by_cases hs : s = ""
      · subst hs
        simp [hga, ih]
      · simp [hga, hs, ih]

theorem alignCategory_eq (dmIds : List String) (md : List (String × Value)) :
    alignCategory dmIds md
      = (dmIds.filter (fun i =>
          ((toNumericSeries md).lookup i).getD Value.na ≠ Value.na ∧
          ((toNumericSeries md).lookup i).getD Value.na ≠ Value.str "")).map
          (fun i => (i, ((toNumericSeries md).lookup i).getD Value.na)) := by
  simp only [alignCategory]
  exact align_chain (fun i => ((toNumericSeries md).lookup i).getD Value.na) dmIds

theorem alignCategory_ids (dmIds : List String) (md : List (String × Value)) :
    (alignCategory dmIds md).map (fun p => p.1)
      = dmIds.filter (fun i =>
          ((toNumericSeries md).lookup i).getD Value.na ≠ Value.na ∧
          ((toNumericSeries md).lookup i).getD Value.na ≠ Value.str "") := by
  rw [alignCategory_eq, List.map_map]
  have hid : ((fun p : String × Value => p.1) ∘
      (fun i : String => (i, ((toNumericSeries md).lookup i).getD Value.na)))
      = id := rfl
  rw [hid, List.map_id]

theorem alignCategory_sub (dmIds : List String) (md : List (String × Value)) :
    ∀ i ∈ (alignCategory dmIds md).map (fun p => p.1), i ∈ dmIds := by
  intro i hi
  rw [alignCategory_ids] at hi
  exact (List.mem_filter.mp hi).1

theorem bgsFilterDM_eq (dm : DistanceMatrix) (md : List (String × Value)) :
    bgsFilterDM dm md
      = .ok (⟨(alignCategory dm.ids md).map (fun p => p.1), dm.d⟩,
             alignCategory dm.ids md) := by
  have hok := distFilter_ok dm ((alignCategory dm.ids md).map (fun p => p.1))
    (alignCategory_sub dm.ids md)
  simp [bgsFilterDM, hok]

theorem alignKeep_iff (md : List (String × Value)) (i : String) :
    (((toNumericSeries md).lookup i).getD Value.na ≠ Value.na ∧
     ((toNumericSeries md).lookup i).getD Value.na ≠ Value.str "")
    ↔ (match md.lookup i with
       | some v => v ≠ Value.na ∧ v ≠ Value.str ""
       | none => False) := by
  unfold toNumericSeries
  by_cases hall : md.all (fun p => (coerceVal p.2).isSome)
  · rw [if_pos hall]
    have hlm := lookup_map_value (fun v => (coerceVal v).getD v) md i
    rw [hlm]
    cases hmd : md.lookup i with
    | none => simp
    | some v =>
      have hv : (i, v) ∈ md := lookup_mem hmd
      have hcs : (coerceVal v).isSome := by
        simpa using List.all_eq_true.mp hall _ hv
      cases v with
      | num q => simp [coerceVal]
      | na => simp [coerceVal]
      | str s =>
        have hs : s ≠ "" := by
          intro he
          subst he
          have : strToInt? "" = none := rfl
          simp [coerceVal, this] at hcs
        cases hti : strToInt? s with
        | none => simp [coerceVal, hti] at hcs
        | some m => simp [coerceVal, hti, hs]
  · rw [if_neg hall]
    cases hmd : md.lookup i with
    | none => simp
    | some v => simp

/-- C5: the metadata alignment of `beta_group_significance` keeps
exactly the distance-matrix ids whose metadata value exists and is
neither missing nor the empty string, and the subsequent strict filter
produces a distance matrix whose ids are exactly those surviving ids. -/
theorem bgs_metadata_alignment (dm : DistanceMatrix)
    (md : List (String × Value)) :
    (alignCategory dm.ids md).map (fun p => p.1)
        = dm.ids.filter (fun i =>
            match md.lookup i with
            | some v => decide (v ≠ Value.na ∧ v ≠ Value.str "")
            | none => false) ∧
    ∃ dmf, bgsFilterDM dm md = .ok (dmf, alignCategory dm.ids md) ∧
      dmf.ids = (alignCategory dm.ids md).map (fun p => p.1) := by
  constructor
  · rw [alignCategory_ids]
    apply List.filter_congr
    intro i _
    have h := alignKeep_iff md i
    rw [Bool.eq_iff_iff]
    cases hmd : md.lookup i with
    | none =>
      rw [hmd] at h
      simpa using fun hcon => h.mp hcon
    | some v =>
      rw [hmd] at h
      simpa using h
  · exact ⟨_, bgsFilterDM_eq dm md, rfl⟩

theorem bgs_metadata_alignment_witness :
    (alignCategory wdmABCDE.ids wmd5).map (fun p => p.1) = ["a", "b", "c", "e"] ∧
    ∃ dmf, bgsFilterDM wdmABCDE wmd5 = .ok (dmf, alignCategory wdmABCDE.ids wmd5) ∧
      dmf.ids = ["a", "b", "c", "e"] := by
  have h := bgs_metadata_alignment wdmABCDE wmd5
  refine ⟨by rw [h.1]; decide, ?_⟩
  obtain ⟨dmf, hok, hids⟩ := h.2
  exact ⟨dmf, hok, by rw [hids, h.1]; decide⟩

theorem groupby_ids_subset {md : List (String × Value)} {v : Value}
    {ids : List String} (h : (groupby md).lookup v = some ids) :
    ∀ x ∈ ids, x ∈ md.map (fun p => p.1) := by
  intro x hx
  have hm : (v, ids) ∈ groupby md := lookup_mem h
  rw [groupby_group_eq hm] at hx
  obtain ⟨p, hp, rfl⟩ := List.mem_map.mp hx
  exact List.mem_map.mpr ⟨p, List.mem_of_mem_filter hp, rfl⟩

/-- C9: every strict-mode distance-matrix filter in
`beta_group_significance` is applied to an id set contained in the
matrix's ids, so the strict missing-id error branch is unreachable: the
global filter after metadata alignment always succeeds, and every
pairwise filter over two groups of the grouping of the aligned metadata
always succeeds. -/
theorem bgs_strict_filter_unreachable (dm : DistanceMatrix)
    (md : List (String × Value)) :
    (∃ r, bgsFilterDM dm md = .ok r) ∧
    (∀ dmf mdA, bgsFilterDM dm md = .ok (dmf, mdA) →
      ∀ g1 g2 sig permutations,
        ∃ s, getPairwiseStats dmf g1 g2 (groupby mdA) mdA sig permutations
          = .ok s) := by
  refine ⟨⟨_, bgsFilterDM_eq dm md⟩, ?_⟩
  intro dmf mdA hok g1 g2 sig permutations
  rw [bgsFilterDM_eq dm md] at hok
  injection hok with h
  injection h with hdmf hmdA
  subst hdmf
  subst hmdA
  have hsub : ∀ x ∈ (((groupby (alignCategory dm.ids md)).lookup g1).getD []
      ++ ((groupby (alignCategory dm.ids md)).lookup g2).getD []),
      x ∈ (alignCategory dm.ids md).map (fun p => p.1) := by
    intro x hx
    rcases List.mem_append.mp hx with hx1 | hx2
    · cases h1 : (groupby (alignCategory dm.ids md)).lookup g1 with
      | none => rw [h1] at hx1; cases hx1
      | some ids => rw [h1] at hx1; exact groupby_ids_subset h1 x hx1
    · cases h2 : (groupby (alignCategory dm.ids md)).lookup g2 with
      | none => rw [h2] at hx2; cases hx2
      | some ids => rw [h2] at hx2; exact groupby_ids_subset h2 x hx2
  have hf := distFilter_ok
    ⟨(alignCategory dm.ids md).map (fun p => p.1), dm.d⟩ _ hsub
  exact ⟨_, by simp only [getPairwiseStats]; rw [hf]; rfl⟩

theorem bgs_strict_filter_unreachable_witness :
    (∃ r, bgsFilterDM wdmABCDE wmd5 = .ok r) ∧
    (∃ s, getPairwiseStats ⟨["a", "b", "c", "e"], wdmABCDE.d⟩ (.num 1) (.num 2)
      (groupby (alignCategory wdmABCDE.ids wmd5))
      (alignCategory wdmABCDE.ids wmd5) wsig 99 = .ok s) := by
  have h := bgs_strict_filter_unreachable wdmABCDE wmd5
  exact ⟨h.1, h.2 ⟨["a", "b", "c", "e"], wdmABCDE.d⟩
    (alignCategory wdmABCDE.ids wmd5) (by rfl) (.num 1) (.num 2) wsig 99⟩

theorem except_bind_ok {ε α β : Type} {x : Except ε α} {f : α → Except ε β}
    {b : β} (h : x >>= f = .ok b) : ∃ a, x = .ok a ∧ f a = .ok b := by
  cases x with
  | error e =>
    rw [show (Except.error e >>= f : Except ε β) = Except.error e from rfl] at h
    cases h
  | ok a =>
    rw [show (Except.ok a >>= f : Except ε β) = f a from rfl] at h
    exact ⟨a, rfl, h⟩

theorem except_pure_ok {ε β : Type} {a b : β}
    (h : (pure a : Except ε β) = .ok b) : a = b := by
  rw [show (pure a : Except ε β) = .ok a from rfl] at h
  injection h

theorem mapM_keys {α β γ : Type} (f : α → Except String β) (k : β → γ)
    (proj : α → γ) (hk : ∀ a b, f a = .ok b → k b = proj a) :
    ∀ (l : List α) (ys : List β), l.mapM f = .ok ys → ys.map k = l.map proj := by
  intro l
  induction l with
  | nil =>
    intro ys h
    rw [List.mapM_nil, show (pure [] : Except String (List β)) = .ok [] from rfl] at h
    injection h with h
    subst h
    rfl
  | cons a t ih =>
    intro ys h
    rw [List.mapM_cons] at h
    obtain ⟨y, hy, h⟩ := except_bind_ok h
    obtain ⟨ts, hts, h⟩ := except_bind_ok h
    rw [show (pure (y :: ts) : Except String (List β)) = .ok (y :: ts) from rfl] at h
    injection h with h
    subst h
    simp only [List.map_cons, hk a y hy, ih ts hts]

theorem pairwiseRows_keys (dm : DistanceMatrix)
    (groupings : List (Value × List String)) (metadata : List (String × Value))
    (sig : DistanceMatrix → List (String × Value) → Nat → SigResult)
    (permutations : Nat) (rows : List PairwiseRow)
    (h : pairwiseRows dm groupings metadata sig permutations = .ok rows) :
    rows.map (fun r => (r.group1, r.group2))
      = combinations2 (groupings.map (fun p => p.1)) := by
  unfold pairwiseRows at h
  have := mapM_keys _ (fun r : PairwiseRow => (r.group1, r.group2))
    (fun pr : Value × Value => pr) ?_ _ _ h
  · simpa using this
  · intro a b hab
    obtain ⟨r, _, hb⟩ := except_bind_ok hab
    have hb2 := except_pure_ok hb
    subst hb2
    rfl

/-- C2: with pairwise enabled, the Benjamini–Hochberg q-values are
computed across the full list of pairwise p-values in the order the
group pairs were produced (`combinations` of the grouping's labels) and
appended as a column; the table is then sorted lexicographically by the
(Group 1, Group 2) key, and the sorted table is the only output — the
production-order table does not survive. -/
theorem bgs_pairwise_qvalues_and_sorting (dm : DistanceMatrix)
    (groupings : List (Value × List String)) (metadata : List (String × Value))
    (sig : DistanceMatrix → List (String × Value) → Nat → SigResult)
    (permutations : Nat) (rows : List PairwiseRow)
    (h : pairwiseRows dm groupings metadata sig permutations = .ok rows) :
    pairwiseTable dm groupings metadata sig permutations
        = .ok ((rows.zip (bhQvalues (rows.map (fun r => r.pvalue)))).insertionSort
            rowLe) ∧
    ∀ out, pairwiseTable dm groupings metadata sig permutations = .ok out →
      List.Sorted rowLe out ∧
      out.Perm (rows.zip (bhQvalues (rows.map (fun r => r.pvalue)))) ∧
      rows.map (fun r => (r.group1, r.group2))
        = combinations2 (groupings.map (fun p => p.1)) := by
  have htab : pairwiseTable dm groupings metadata sig permutations
      = .ok ((rows.zip (bhQvalues (rows.map (fun r => r.pvalue)))).insertionSort
          rowLe) := by
    simp only [pairwiseTable]
    rw [h]
    rfl
  refine ⟨htab, fun out hout => ?_⟩
  rw [htab] at hout
  injection hout with hout
  subst hout
  exact ⟨List.sorted_insertionSort rowLe _,
    List.perm_insertionSort rowLe _,
    pairwiseRows_keys dm groupings metadata sig permutations rows h⟩

theorem bgs_pairwise_qvalues_and_sorting_witness :
    ∃ out, pairwiseTable wdmABC wg3 wmdC3 wsig 9 = .ok out ∧
      List.Sorted rowLe out ∧
      out.Perm (wrows.zip (bhQvalues (wrows.map (fun r => r.pvalue)))) ∧
      wrows.map (fun r => (r.group1, r.group2))
        = combinations2 (wg3.map (fun p => p.1)) := by
  have h := bgs_pairwise_qvalues_and_sorting wdmABC wg3 wmdC3 wsig 9 wrows
    (by decide)
  exact ⟨_, h.1, h.2 _ h.1⟩

theorem colIsNumeric_toNumericList (vals : List Value) :
    colIsNumeric (toNumericList vals) = true
      ↔ ∀ v ∈ vals, (coerceVal v).isSome := by
  unfold toNumericList
  by_cases hall : vals.all (fun v => (coerceVal v).isSome)
  · rw [if_pos hall]
    constructor
    · intro _ v hv
      simpa using List.all_eq_true.mp hall _ hv
    · intro _
      unfold colIsNumeric
      rw [List.all_eq_true]
      intro w hw
      obtain ⟨v, hv, rfl⟩ := List.mem_map.mp hw
      have hs : (coerceVal v).isSome := by
        simpa using List.all_eq_true.mp hall _ hv
      cases v with
      | num q => simp [coerceVal]
      | na => simp [coerceVal]
      | str s =>
        cases hti : strToInt? s with
        | none => simp [coerceVal, hti] at hs
        | some m => simp [coerceVal, hti]
  · rw [if_neg hall]
    constructor
    · intro hnum v hv
      have hvn := List.all_eq_true.mp hnum _ hv
      cases v with
      | num q => simp [coerceVal]
      | na => simp [coerceVal]
      | str s => simp [colIsNumeric] at hvn
    · intro hc
      exact absurd (List.all_eq_true.mpr (fun v hv => hc v hv)) hall

theorem nodupKeys_eq {α β : Type} [DecidableEq α] {l : List (α × β)}
    (h : (l.map Prod.fst).Nodup) {k : α} {b b' : β}
    (hb : (k, b) ∈ l) (hb' : (k, b') ∈ l) : b = b' := by
  induction l with
  | nil => cases hb
  | cons a t ih =>
    rw [List.map_cons, List.nodup_cons] at h
    rcases List.mem_cons.mp hb with he | hbt
    · rcases List.mem_cons.mp hb' with he' | hb't
      · rw [← he'] at he
        injection he with _ h2
      · exfalso
        apply h.1
        rw [← he]
        exact List.mem_map.mpr ⟨(k, b'), hb't, rfl⟩
    · rcases List.mem_cons.mp hb' with he' | hb't
      · exfalso
        apply h.1
        rw [← he']
        exact List.mem_map.mpr ⟨(k, b), hbt, rfl⟩
      · exact ih h.2 hbt hb't

theorem distFilter_lenient (dm : DistanceMatrix) (keep : List String) :
    dm.filter keep false
      = .ok ⟨keep.filter (fun i => i ∈ dm.ids), dm.d⟩ := by
  unfold DistanceMatrix.filter
  rw [if_neg]
  intro hc
  simpa using hc.1

/-- C4: `bioenv` drops exactly the columns that are not strictly numeric
after per-column coercion (reported as the categorical filter), then
drops the rows with missing values, then drops exactly the numeric
columns whose variance is exactly zero (reported separately), and
filters the distance matrix leniently — never an error — to the
surviving sample ids. -/
theorem bioenv_filtering (dm : DistanceMatrix) (metadata : DataFrame)
    (hnodup : (metadata.cols.map Prod.fst).Nodup) :
    (∀ name, name ∈ (bioenv dm metadata).filtered_categorical_cols ↔
      ∃ vals, (name, vals) ∈ metadata.cols ∧ ∃ v ∈ vals, coerceVal v = none) ∧
    (∀ name, name ∈ (bioenv dm metadata).filtered_zero_variance_cols ↔
      ∃ vals, (name, vals) ∈ (selectNumericDropna (bioenvCoerce metadata)).cols ∧
        colVar vals = some 0) ∧
    (bioenv dm metadata).df.index
      = (selectNumericDropna (bioenvCoerce metadata)).index ∧
    ∃ dmf, (bioenv dm metadata).dmFiltered = .ok dmf ∧
      dmf.ids = (bioenv dm metadata).df.index.filter (fun i => i ∈ dm.ids) := by
  have hCCnames : (bioenvCoerce metadata).cols.map Prod.fst
      = metadata.cols.map Prod.fst := by
    simp only [bioenvCoerce]
    rw [List.map_map]
    rfl
  have h1names : (selectNumericDropna (bioenvCoerce metadata)).cols.map Prod.fst
      = ((bioenvCoerce metadata).cols.filter
          (fun c => colIsNumeric c.2)).map Prod.fst := by
    simp only [selectNumericDropna]
    rw [List.map_map]
    rfl
  have hnodup1 :
      ((selectNumericDropna (bioenvCoerce metadata)).cols.map Prod.fst).Nodup := by
    rw [h1names]
    refine List.Nodup.sublist (List.Sublist.map _ (List.filter_sublist _)) ?_
    rw [hCCnames]
    exact hnodup
  refine ⟨?_, ?_, rfl, ?_⟩
  · intro name
    show name ∈ ((bioenvCoerce metadata).cols.map (fun c => c.1)).filter
        (fun c => c ∉ (selectNumericDropna (bioenvCoerce metadata)).cols.map
          (fun x => x.1)) ↔ _
    rw [List.mem_filter, decide_eq_true_eq]
    constructor
    · rintro ⟨hpre, hnot⟩
      obtain ⟨c, hcCC, hname⟩ := List.mem_map.mp hpre
      obtain ⟨c0, hc0, rfl⟩ := List.mem_map.mp hcCC
      subst hname
      refine ⟨c0.2, hc0, ?_⟩
      by_contra hno
      push_neg at hno
      have hall : ∀ v ∈ c0.2, (coerceVal v).isSome := by
        intro v hv
        exact Option.ne_none_iff_isSome.mp (hno v hv)
      have hnum := (colIsNumeric_toNumericList c0.2).mpr hall
      apply hnot
      have hm : c0.1 ∈ ((bioenvCoerce metadata).cols.filter
          (fun c => colIsNumeric c.2)).map Prod.fst :=
        List.mem_map.mpr ⟨(c0.1, toNumericList c0.2),
          List.mem_filter.mpr ⟨List.mem_map.mpr ⟨c0, hc0, rfl⟩, hnum⟩, rfl⟩
      rw [← h1names] at hm
      exact hm
    · rintro ⟨vals, hv, v, hvv, hvc⟩
      refine ⟨List.mem_map.mpr ⟨(name, toNumericList vals),
        List.mem_map.mpr ⟨(name, vals), hv, rfl⟩, rfl⟩, ?_⟩
      intro hmem
      have hmem2 : name ∈ ((bioenvCoerce metadata).cols.filter
          (fun c => colIsNumeric c.2)).map Prod.fst := by
        rw [← h1names]
        exact hmem
      obtain ⟨c, hcfil, hce⟩ := List.mem_map.mp hmem2
      have hcf := List.mem_filter.mp hcfil
      obtain ⟨c0, hc0, rfl⟩ := List.mem_map.mp hcf.1
      have hce2 : c0.1 = name := hce
      have heq : c0.2 = vals := by
        apply nodupKeys_eq hnodup ?_ hv
        rw [← hce2]
        exact hc0
      have hnum := hcf.2
      rw [heq] at hnum
      have hall := (colIsNumeric_toNumericList vals).mp hnum
      have := hall v hvv
      rw [hvc] at this
      cases this
  · intro name
    show name ∈ ((selectNumericDropna (bioenvCoerce metadata)).cols.map
        (fun c => c.1)).filter
        (fun c => c ∉ (dropZeroVar (selectNumericDropna
          (bioenvCoerce metadata))).cols.map (fun x => x.1)) ↔ _
    rw [List.mem_filter, decide_eq_true_eq]
    constructor
    · rintro ⟨hpre, hnot⟩
      obtain ⟨c, hc, hname⟩ := List.mem_map.mp hpre
      subst hname
      refine ⟨c.2, hc, ?_⟩
      by_contra hvne
      apply hnot
      exact List.mem_map.mpr ⟨c,
        List.mem_filter.mpr ⟨hc, by simpa using hvne⟩, rfl⟩
    · rintro ⟨vals, hv, hvar⟩
      refine ⟨List.mem_map.mpr ⟨(name, vals), hv, rfl⟩, ?_⟩
      intro hmem
      obtain ⟨c, hcf, hce⟩ := List.mem_map.mp hmem
      have hc2 := List.mem_filter.mp hcf
      have hce2 : c.1 = name := hce
      have heq : c.2 = vals := by
        apply nodupKeys_eq hnodup1 ?_ hv
        rw [← hce2]
        exact hc2.1
      have hvne := hc2.2
      rw [heq] at hvne
      simp only [decide_eq_true_eq] at hvne
      exact hvne hvar
  · exact ⟨_, distFilter_lenient dm
      ((dropZeroVar (selectNumericDropna (bioenvCoerce metadata))).index), rfl⟩

theorem bioenv_filtering_witness :
    "c1" ∈ (bioenv wdmS wmeta).filtered_categorical_cols ∧
    (bioenv wdmS wmeta).filtered_categorical_cols = ["c1"] ∧
    "c2" ∈ (bioenv wdmS wmeta).filtered_zero_variance_cols ∧
    ∃ dmf, (bioenv wdmS wmeta).dmFiltered = .ok dmf ∧
      dmf.ids = ["s1", "s2"] := by
  have h := bioenv_filtering wdmS wmeta (by decide)
  refine ⟨?_, by decide, ?_, ?_⟩
  · exact (h.1 "c1").mpr
      ⟨[.str "x", .str "y"], by decide, .str "x", by decide, by decide⟩
  · refine (h.2.1 "c2").mpr ⟨[.num 1, .num 1], by decide, ?_⟩
    show colVar [.num 1, .num 1] = some 0
    simp [colVar]
  · obtain ⟨dmf, hok, hids⟩ := h.2.2.2
    exact ⟨dmf, hok, by rw [hids]; decide⟩
